import Mathlib

/-!
Verification of the ETF composition mapper (`etf_mapper/compo_mapper.py`).

Shallow embedding conventions:
* A CSV cell that may be empty is an `Option`; pandas `NaN` is `none`.
* The weight column cell is a `WeightCell`: `missing` (empty cell, read as
  `NaN`), `val q` (a numeric value, modelled as an exact rational), or
  `invalid` (a string `float(x)` cannot parse; `float` raises `ValueError`
  on it).
* The file system is a function `String → Option (List Holding)`:
  `fs path = none` models `not file_path.exists()`, `some rows` models the
  parsed CSV content (`pd.read_csv`).  The `index_col=0` index column and
  the textual form of the CSV are abstracted away; the `ISIN` and
  `Asset Class` cells are taken as present strings, while every remaining
  column of the holdings file is kept in `others` (these cells matter only
  through `dropna`).
* `np.log` is modelled symbolically by `NpLogVal`: negative input gives
  `nan`, zero gives `negInf` (numpy's `-inf`), positive input `q` gives
  `logOf q`, standing for the finite value `ln q`.  No claim depends on the
  numeric value of a finite logarithm.
* Logging (`logger.debug/warning/error`) has no observable effect on the
  returned data and is not modelled; raised exceptions are `Except.error`.
-/

/-- One row of `data/iso_country_mapping.csv` as read by `pd.read_csv`
(columns `Alpha-2 code`, `Alpha-3 code`, `Name`), before whitespace
normalization. -/
structure IsoEntry where
  alpha2 : String
  alpha3 : String
  name : String
deriving DecidableEq

/-- Python `x.replace(' ', '')`: remove every space character. -/
def stripSpaces (s : String) : String :=
  String.mk (s.toList.filter (fun c => c ≠ ' '))

/-- `CompoMapper.load_iso_mapping` (lines 99-114): reads the reference
table and strips spaces from the `Alpha-2 code` and `Alpha-3 code`
columns.  The raw table is a parameter (the CSV itself is data, not code);
the `lru_cache` only memoizes the pure result and is not modelled. -/
def load_iso_mapping (raw : List IsoEntry) : List IsoEntry :=
  raw.map (fun e =>
    { alpha2 := stripSpaces e.alpha2
      alpha3 := stripSpaces e.alpha3
      name := e.name })

/-- `CompoMapper.get_iso3_from_iso2` (lines 139-160): if `iso2` occurs in
the `Alpha-2 code` column, take the FIRST index at which it occurs
(`list.index`) and return that row's `Alpha-3 code`; otherwise log a
warning and return `None`.  `List.find?` returns the first matching row,
which is exactly the membership-test-plus-`list.index` combination. -/
def get_iso3_from_iso2 (raw : List IsoEntry) (iso2 : String) : Option String :=
  match (load_iso_mapping raw).find? (fun e => e.alpha2 == iso2) with
  | some e => some e.alpha3
  | none => none

/-- `CompoMapper.get_country_name_from_iso3` (lines 116-137): symmetric
first-match lookup from the `Alpha-3 code` column to the `Name` column,
returning `None` (with a logged warning) when absent. -/
def get_country_name_from_iso3 (raw : List IsoEntry) (iso3 : String) : Option String :=
  match (load_iso_mapping raw).find? (fun e => e.alpha3 == iso3) with
  | some e => some e.name
  | none => none

/-- A weight cell of the holdings CSV, as seen by
`compo_frame['Weight (%)'].apply(lambda x: float(x))`. -/
inductive WeightCell where
  | missing
  | val (q : ℚ)
  | invalid
deriving DecidableEq

/-- One data row of a holdings CSV (`pd.read_csv(file_path, index_col=0)`).
`others` holds the cells of every column other than `ISIN`, `Asset Class`
and `Weight (%)`; a `none` entry is an empty cell (`NaN`). -/
structure Holding where
  isin : String
  assetClass : String
  weight : WeightCell
  others : List (Option String)
deriving DecidableEq

/-- A row of the frame returned by `load_etf_compo`, after the equity
filter, the `float` coercion, the derived `iso2_code`/`iso3_code` columns
and `dropna` (so weight and iso3 are present here). -/
structure CompoRow where
  isin : String
  weight : ℚ
  iso2 : String
  iso3 : String
  others : List (Option String)
deriving DecidableEq

/-- The row-processing part of `CompoMapper.load_etf_compo`
(lines 38-43), after the file has been read:
* keep only rows with `Asset Class == 'Equity'`;
* `float` the weight cell: an unparseable cell raises `ValueError`
  (`Except.error`), an empty cell stays `NaN`;
* `iso2_code = ISIN[:2]`, `iso3_code = get_iso3_from_iso2(iso2_code)`;
* `dropna()`: drop every row that has `NaN`/`None` in ANY column —
  missing weight, unresolved `iso3_code`, or an empty cell of any other
  column.
The pandas pipeline is column-by-column but row-independent, so it is
embedded row-recursively; the raised `ValueError` (from the first
unparseable weight among equity rows, in row order) coincides. -/
def parse_holdings (raw : List IsoEntry) : List Holding → Except String (List CompoRow)
  | [] => .ok []
  | h :: t =>
    if h.assetClass == "Equity" then
      match h.weight with
      | .invalid => .error "could not convert string to float"
      | .missing => parse_holdings raw t
      | .val q =>
        match get_iso3_from_iso2 raw (h.isin.take 2) with
        | none => parse_holdings raw t
        | some a3 =>
          if h.others.all (fun o => o.isSome) then
            (parse_holdings raw t).map (fun rest =>
              { isin := h.isin, weight := q, iso2 := h.isin.take 2,
                iso3 := a3, others := h.others } :: rest)
          else parse_holdings raw t
    else parse_holdings raw t

/-- `CompoMapper.load_etf_compo` (lines 21-45): raise a `ValueError` with
the descriptive message when the path does not exist (the
`logger.catch(reraise=True)` decorator re-raises, so the caller sees the
failure), otherwise read the CSV and process its rows. -/
def load_etf_compo (fs : String → Option (List Holding)) (raw : List IsoEntry)
    (path : String) : Except String (List CompoRow) :=
  match fs path with
  | none => .error ("Non-existent file path " ++ path ++ "! Data must be downloaded first!")
  | some rows => parse_holdings raw rows

/-- Symbolic value of `np.log` on a weight: `nan` for a negative argument,
`negInf` (numpy `-inf`) for zero, and `logOf q` standing for the finite
real `ln q` when `q > 0`. -/
inductive NpLogVal where
  | nan
  | negInf
  | logOf (q : ℚ)
deriving DecidableEq

/-- `np.log` on one weight cell (line 94), symbolically. -/
def np_log (q : ℚ) : NpLogVal :=
  if q < 0 then .nan else if q = 0 then .negInf else .logOf q

/-- One row of the frame returned by `get_country_weights`. -/
structure CountryWeightRow where
  iso3_code : String
  weight : ℚ
  country : Option String
  weight_log : NpLogVal
deriving DecidableEq

/-- The summed weight of the group of composition rows with a given
`iso3_code`: `compo_frame.groupby('iso3_code').sum()` evaluated at one
group key (line 82 together with the `.loc` read on line 90). -/
def groupSum (compo : List CompoRow) (a3 : String) : ℚ :=
  ((compo.filter (fun r => r.iso3 == a3)).map (fun r => r.weight)).sum

/-- The aggregation part of `CompoMapper.get_country_weights`
(lines 82-94), applied to an already-loaded composition frame:
* build one row per reference-table row, indexed and valued by its
  `Alpha-3 code`, with `weight = 0`;
* for every group key of the grouped composition frame, overwrite the
  weight of the matching reference rows with the group's summed weight
  (`country_weights.loc[iso3, 'weight'] = ...` assigns every index row
  equal to `iso3`, hence the per-entry conditional);
* attach the country name via `get_country_name_from_iso3` and the
  `np.log` of the weight.
The group keys are the distinct `iso3_code` values of the composition
frame; only membership in them matters, so their order is irrelevant. -/
def aggregate_country_weights (raw : List IsoEntry) (compo : List CompoRow) :
    List CountryWeightRow :=
  let keys := (compo.map (fun r => r.iso3)).dedup
  (load_iso_mapping raw).map (fun e =>
    let w : ℚ := if e.alpha3 ∈ keys then groupSum compo e.alpha3 else 0
    { iso3_code := e.alpha3
      weight := w
      country := get_country_name_from_iso3 raw e.alpha3
      weight_log := np_log w })

/-- `CompoMapper.get_country_weights` (lines 68-96): load the composition
file, then aggregate per country against the reference table. -/
def get_country_weights (fs : String → Option (List Holding)) (raw : List IsoEntry)
    (path : String) : Except String (List CountryWeightRow) :=
  (load_etf_compo fs raw path).map (aggregate_country_weights raw)

/-- Sum of the `weight` column of an aggregated output. -/
def totalOutputWeight (out : List CountryWeightRow) : ℚ :=
  (out.map (fun r => r.weight)).sum

/-- Sum of the numeric weight cells of a holdings input (a non-numeric or
empty cell contributes nothing). -/
def totalInputWeight (rows : List Holding) : ℚ :=
  (rows.map (fun h =>
    match h.weight with
    | .val q => q
    | _ => 0)).sum

/-- The composition row an equity holding with a present weight and a
resolved country code turns into. -/
def row_of_holding (raw : List IsoEntry) (h : Holding) : CompoRow :=
  { isin := h.isin
    weight :=
      match h.weight with
      | .val q => q
      | _ => 0
    iso2 := h.isin.take 2
    iso3 := (get_iso3_from_iso2 raw (h.isin.take 2)).getD ""
    others := h.others }

/-- A predicate bundling the conditions under which a holdings row
survives the whole of `load_etf_compo`: equity asset class, a present
numeric weight, a resolvable identifier prefix and no empty cell in any
other column. -/
def survives (raw : List IsoEntry) (h : Holding) : Prop :=
  h.assetClass = "Equity" ∧ (∃ q, h.weight = WeightCell.val q) ∧
    (get_iso3_from_iso2 raw (h.isin.take 2)).isSome = true ∧
    h.others.all (fun o => o.isSome) = true

/-! ### Lookup lemmas -/

/-- `List.find?` returns the first match: if nothing in the prefix
matches and `e` does, the search stops at `e`. -/
theorem find?_append_first {α : Type} (p : α → Bool) (l₁ : List α) (e : α) (l₂ : List α)
    (h₁ : ∀ x ∈ l₁, p x = false) (he : p e = true) :
    (l₁ ++ e :: l₂).find? p = some e := by
  induction l₁ with
  | nil => simp [List.find?_cons_of_pos, he]
  | cons a t ih =>
    have ha : p a = false := h₁ a (by simp)
    rw [List.cons_append, List.find?_cons_of_neg _ (by simp [ha])]
    exact ih (fun x hx => h₁ x (by simp [hx]))

/-- An alpha-2 code occurring nowhere in the normalized reference table
resolves to the absent sentinel. -/
theorem get_iso3_from_iso2_eq_none (raw : List IsoEntry) (c : String)
    (h : c ∉ (load_iso_mapping raw).map (fun e => e.alpha2)) :
    get_iso3_from_iso2 raw c = none := by
  unfold get_iso3_from_iso2
  have hf : (load_iso_mapping raw).find? (fun e => e.alpha2 == c) = none := by
    rw [List.find?_eq_none]
    intro x hx hbx
    exact h (List.mem_map.mpr ⟨x, hx, by simpa using hbx⟩)
  rw [hf]

/-- A successful alpha-2 lookup returns an alpha-3 code occurring in the
normalized reference table. -/
theorem get_iso3_mem_alpha3 (raw : List IsoEntry) (c a3 : String)
    (h : get_iso3_from_iso2 raw c = some a3) :
    a3 ∈ (load_iso_mapping raw).map (fun e => e.alpha3) := by
  unfold get_iso3_from_iso2 at h
  cases hf : (load_iso_mapping raw).find? (fun e => e.alpha2 == c) with
  | none => rw [hf] at h; cases h
  | some e =>
    rw [hf] at h
    cases h
    exact List.mem_map.mpr ⟨e, List.mem_of_find?_eq_some hf, rfl⟩

/-! ### Row-processing lemmas -/

/-- A row whose asset class is not `Equity` is discarded by the filter on
line 39 before any other processing. -/
theorem parse_holdings_cons_not_equity (raw : List IsoEntry) (h : Holding) (t : List Holding)
    (hne : h.assetClass ≠ "Equity") :
    parse_holdings raw (h :: t) = parse_holdings raw t := by
  simp [parse_holdings, hne]

/-- A row with an empty weight cell keeps its `NaN` through the `float`
coercion and is discarded by `dropna`, whatever its other fields are. -/
theorem parse_holdings_cons_missing (raw : List IsoEntry) (h : Holding) (t : List Holding)
    (hm : h.weight = WeightCell.missing) :
    parse_holdings raw (h :: t) = parse_holdings raw t := by
  simp only [parse_holdings, hm]
  split <;> rfl

/-- A row whose identifier prefix does not resolve gets `iso3_code = None`
and is discarded by `dropna`, provided its weight cell is parseable (an
unparseable weight raises before the lookup result matters). -/
theorem parse_holdings_cons_unresolved (raw : List IsoEntry) (h : Holding) (t : List Holding)
    (hv : h.weight ≠ WeightCell.invalid)
    (hiso : get_iso3_from_iso2 raw (h.isin.take 2) = none) :
    parse_holdings raw (h :: t) = parse_holdings raw t := by
  simp only [parse_holdings, hiso]
  cases hw : h.weight with
  | invalid => exact absurd hw hv
  | missing => split <;> rfl
  | val q => split <;> rfl

/-- An equity row surviving every filter is prepended to the processed
rest: its weight is the parsed rational, `iso2` the identifier prefix and
`iso3` the resolved code. -/
theorem parse_holdings_cons_keep (raw : List IsoEntry) (h : Holding) (t : List Holding)
    (q : ℚ) (a3 : String) (he : h.assetClass = "Equity") (hw : h.weight = WeightCell.val q)
    (hiso : get_iso3_from_iso2 raw (h.isin.take 2) = some a3)
    (ho : h.others.all (fun o => o.isSome) = true) :
    parse_holdings raw (h :: t) = (parse_holdings raw t).map (fun rest =>
      { isin := h.isin, weight := q, iso2 := h.isin.take 2,
        iso3 := a3, others := h.others } :: rest) := by
  simp [parse_holdings, he, hw, hiso, ho]

/-- A row with an empty cell in one of the other columns is discarded by
`dropna` even when its asset class, weight and country code are all in
order. -/
theorem parse_holdings_cons_dropna (raw : List IsoEntry) (h : Holding) (t : List Holding)
    (q : ℚ) (a3 : String) (he : h.assetClass = "Equity") (hw : h.weight = WeightCell.val q)
    (hiso : get_iso3_from_iso2 raw (h.isin.take 2) = some a3)
    (ho : h.others.all (fun o => o.isSome) = false) :
    parse_holdings raw (h :: t) = parse_holdings raw t := by
  simp [parse_holdings, he, hw, hiso, ho]

/-- An equity row with an unparseable weight cell makes the load fail with
the `float` conversion error, wherever it occurs in the file. -/
theorem parse_holdings_error_of_invalid (raw : List IsoEntry) (rows : List Holding) (h : Holding)
    (hm : h ∈ rows) (he : h.assetClass = "Equity") (hw : h.weight = WeightCell.invalid) :
    parse_holdings raw rows = .error "could not convert string to float" := by
  induction rows with
  | nil => cases hm
  | cons x t ih =>
    rcases List.mem_cons.mp hm with rfl | hmem
    · simp [parse_holdings, he, hw]
    · have ht := ih hmem
      by_cases hxe : x.assetClass = "Equity"
      · cases hxw : x.weight with
        | invalid => simp [parse_holdings, hxe, hxw]
        | missing => rw [parse_holdings_cons_missing raw x t hxw]; exact ht
        | val q =>
          cases hxi : get_iso3_from_iso2 raw (x.isin.take 2) with
          | none =>
            rw [parse_holdings_cons_unresolved raw x t (by simp [hxw]) hxi]
            exact ht
          | some a3 =>
            by_cases hxo : x.others.all (fun o => o.isSome) = true
            · rw [parse_holdings_cons_keep raw x t q a3 hxe hxw hxi hxo, ht]; rfl
            · rw [parse_holdings_cons_dropna raw x t q a3 hxe hxw hxi
                (by simpa using hxo)]
              exact ht
      · rw [parse_holdings_cons_not_equity raw x t hxe]; exact ht

/-- When every row survives, the load succeeds and keeps every row, in
order. -/
theorem parse_holdings_of_survives (raw : List IsoEntry) (rows : List Holding)
    (hall : ∀ h ∈ rows, survives raw h) :
    parse_holdings raw rows = .ok (rows.map (row_of_holding raw)) := by
  induction rows with
  | nil => rfl
  | cons h t ih =>
    obtain ⟨he, ⟨q, hq⟩, hiso, ho⟩ := hall h (List.mem_cons_self h t)
    cases hs : get_iso3_from_iso2 raw (h.isin.take 2) with
    | none => rw [hs] at hiso; cases hiso
    | some a3 =>
      rw [parse_holdings_cons_keep raw h t q a3 he hq hs ho,
        ih (fun x hx => hall x (List.mem_cons_of_mem h hx))]
      simp [Except.map, row_of_holding, hq, hs]

/-- Every row of a successfully loaded composition frame comes from a
holdings row whose identifier prefix resolved to the row's `iso3_code`. -/
theorem parse_holdings_iso3_source (raw : List IsoEntry) (rows : List Holding)
    (compo : List CompoRow) (hok : parse_holdings raw rows = .ok compo) :
    ∀ r ∈ compo, ∃ h ∈ rows, get_iso3_from_iso2 raw (h.isin.take 2) = some r.iso3 := by
  induction rows generalizing compo with
  | nil =>
    cases hok
    intro r hr
    cases hr
  | cons x t ih =>
    intro r hr
    by_cases hxe : x.assetClass = "Equity"
    · cases hxw : x.weight with
      | invalid =>
        rw [parse_holdings_error_of_invalid raw (x :: t) x (List.mem_cons_self x t) hxe hxw]
          at hok
        cases hok
      | missing =>
        rw [parse_holdings_cons_missing raw x t hxw] at hok
        obtain ⟨h, hmem, hres⟩ := ih compo hok r hr
        exact ⟨h, List.mem_cons_of_mem x hmem, hres⟩
      | val q =>
        cases hxi : get_iso3_from_iso2 raw (x.isin.take 2) with
        | none =>
          rw [parse_holdings_cons_unresolved raw x t (by simp [hxw]) hxi] at hok
          obtain ⟨h, hmem, hres⟩ := ih compo hok r hr
          exact ⟨h, List.mem_cons_of_mem x hmem, hres⟩
        | some a3 =>
          by_cases hxo : x.others.all (fun o => o.isSome) = true
          · rw [parse_holdings_cons_keep raw x t q a3 hxe hxw hxi hxo] at hok
            cases hrec : parse_holdings raw t with
            | error e => rw [hrec] at hok; cases hok
            | ok rest =>
              rw [hrec] at hok
              cases hok
              rcases List.mem_cons.mp hr with rfl | hrrest
              · exact ⟨x, List.mem_cons_self x t, hxi⟩
              · obtain ⟨h, hmem, hres⟩ := ih rest hrec r hrrest
                exact ⟨h, List.mem_cons_of_mem x hmem, hres⟩
          · rw [parse_holdings_cons_dropna raw x t q a3 hxe hxw hxi
              (by simpa using hxo)] at hok
            obtain ⟨h, hmem, hres⟩ := ih compo hok r hr
            exact ⟨h, List.mem_cons_of_mem x hmem, hres⟩
    · rw [parse_holdings_cons_not_equity raw x t hxe] at hok
      obtain ⟨h, hmem, hres⟩ := ih compo hok r hr
      exact ⟨h, List.mem_cons_of_mem x hmem, hres⟩

/-- The equity filter on line 39 is the first step of the load: dropping
the non-equity rows beforehand changes nothing. -/
theorem parse_holdings_filter_equity (raw : List IsoEntry) (rows : List Holding) :
    parse_holdings raw (rows.filter (fun h => h.assetClass == "Equity")) =
      parse_holdings raw rows := by
  induction rows with
  | nil => rfl
  | cons x t ih =>
    by_cases hxe : x.assetClass = "Equity"
    · rw [List.filter_cons_of_pos (by simp [hxe])]
      simp only [parse_holdings, hxe]
      cases x.weight with
      | invalid => simp
      | missing => simpa using ih
      | val q =>
        cases get_iso3_from_iso2 raw (x.isin.take 2) with
        | none => simpa using ih
        | some a3 =>
          by_cases hxo : x.others.all (fun o => o.isSome) = true
          · simp [hxo, ih]
          · simp [hxo, ih]
    · rw [List.filter_cons_of_neg (by simp [hxe]), parse_holdings_cons_not_equity raw x t hxe]
      exact ih

/-! ### Aggregation lemmas -/

/-- Splitting a weight sum along a Boolean predicate on the rows. -/
theorem sum_map_filter_split (w : CompoRow → ℚ) (p : CompoRow → Bool) (l : List CompoRow) :
    ((l.filter p).map w).sum + ((l.filter (fun r => !p r)).map w).sum = (l.map w).sum := by
  induction l with
  | nil => simp
  | cons r t ih =>
    by_cases hp : p r = true
    · rw [List.filter_cons_of_pos hp, List.filter_cons_of_neg (by simp [hp]),
        List.map_cons, List.sum_cons, List.map_cons, List.sum_cons, add_assoc, ih]
    · rw [List.filter_cons_of_neg hp, List.filter_cons_of_pos (by simp at hp; simp [hp]),
        List.map_cons, List.sum_cons, List.map_cons, List.sum_cons, add_left_comm, ih]

/-- A group key matching no composition row sums to zero. -/
theorem groupSum_eq_zero_of_not_mem (compo : List CompoRow) (a3 : String)
    (h : a3 ∉ compo.map (fun r => r.iso3)) :
    groupSum compo a3 = 0 := by
  unfold groupSum
  have hnil : compo.filter (fun r => r.iso3 == a3) = [] := by
    rw [List.filter_eq_nil_iff]
    intro r hr hba
    exact h (List.mem_map.mpr ⟨r, hr, by simpa using hba⟩)
  rw [hnil]
  rfl

/-- Removing the rows of one group leaves every other group's sum
unchanged. -/
theorem groupSum_filter_ne (compo : List CompoRow) (a b : String) (hne : b ≠ a) :
    groupSum (compo.filter (fun r => !(r.iso3 == a))) b = groupSum compo b := by
  unfold groupSum
  have hf : (compo.filter (fun r => !(r.iso3 == a))).filter (fun r => r.iso3 == b)
      = compo.filter (fun r => r.iso3 == b) := by
    rw [List.filter_filter]
    apply List.filter_congr
    intro r _
    by_cases hb : r.iso3 = b
    · simp [hb, hne]
    · simp [hb]
  rw [hf]

/-- Summing the group sums over a duplicate-free list of keys covering
every row recovers the total weight of the composition frame. -/
theorem sum_groupSum (L : List String) (compo : List CompoRow)
    (hnd : L.Nodup) (hcov : ∀ r ∈ compo, r.iso3 ∈ L) :
    (L.map (groupSum compo)).sum = (compo.map (fun r => r.weight)).sum := by
  induction L generalizing compo with
  | nil =>
    have hc : compo = [] := by
      cases compo with
      | nil => rfl
      | cons r t => exact absurd (hcov r (List.mem_cons_self r t)) (List.not_mem_nil _)
    subst hc
    simp
  | cons a L' ih =>
    obtain ⟨hna, hnd'⟩ := List.nodup_cons.mp hnd
    have hmap : L'.map (groupSum compo)
        = L'.map (groupSum (compo.filter (fun r => !(r.iso3 == a)))) := by
      apply List.map_congr_left
      intro b hb
      exact (groupSum_filter_ne compo a b (fun hba => hna (hba ▸ hb))).symm
    have hcov' : ∀ r ∈ compo.filter (fun r => !(r.iso3 == a)), r.iso3 ∈ L' := by
      intro r hr
      have hrc : r ∈ compo := List.mem_of_mem_filter hr
      have hne : ¬(r.iso3 == a) = true := by simpa using List.of_mem_filter hr
      rcases List.mem_cons.mp (hcov r hrc) with h1 | h2
      · exact absurd (by simp [h1]) hne
      · exact h2
    rw [List.map_cons, List.sum_cons, hmap,
      ih (compo.filter (fun r => !(r.iso3 == a))) hnd' hcov']
    exact sum_map_filter_split (fun r => r.weight) (fun r => r.iso3 == a) compo

/-- The aggregation builds exactly one output row per reference-table
row. -/
theorem aggregate_country_weights_length (raw : List IsoEntry) (compo : List CompoRow) :
    (aggregate_country_weights raw compo).length = raw.length := by
  simp [aggregate_country_weights, load_iso_mapping]

/-- Every output row's log column is `np.log` of its weight column. -/
theorem aggregate_country_weights_log (raw : List IsoEntry) (compo : List CompoRow)
    (r : CountryWeightRow) (hr : r ∈ aggregate_country_weights raw compo) :
    r.weight_log = np_log r.weight := by
  simp only [aggregate_country_weights] at hr
  obtain ⟨e, _, rfl⟩ := List.mem_map.mp hr
  rfl

/-- Every output row's weight is the summed weight of its group (zero
when the group is empty). -/
theorem aggregate_country_weights_weight (raw : List IsoEntry) (compo : List CompoRow)
    (r : CountryWeightRow) (hr : r ∈ aggregate_country_weights raw compo) :
    r.weight = groupSum compo r.iso3_code := by
  simp only [aggregate_country_weights] at hr
  obtain ⟨e, _, rfl⟩ := List.mem_map.mp hr
  show (if e.alpha3 ∈ (compo.map (fun r => r.iso3)).dedup
      then groupSum compo e.alpha3 else 0) = groupSum compo e.alpha3
  by_cases hm : e.alpha3 ∈ (compo.map (fun r => r.iso3)).dedup
  · rw [if_pos hm]
  · rw [if_neg hm]
    exact (groupSum_eq_zero_of_not_mem compo e.alpha3
      (by simpa [List.mem_dedup] using hm)).symm

/-- The total output weight is the sum of the group sums taken over the
reference table's alpha-3 column. -/
theorem totalOutputWeight_aggregate (raw : List IsoEntry) (compo : List CompoRow) :
    totalOutputWeight (aggregate_country_weights raw compo)
      = (((load_iso_mapping raw).map (fun e => e.alpha3)).map (groupSum compo)).sum := by
  unfold totalOutputWeight aggregate_country_weights
  rw [List.map_map, List.map_map]
  apply congrArg List.sum
  apply List.map_congr_left
  intro e _
  show (if e.alpha3 ∈ (compo.map (fun r => r.iso3)).dedup
      then groupSum compo e.alpha3 else 0) = groupSum compo e.alpha3
  by_cases hm : e.alpha3 ∈ (compo.map (fun r => r.iso3)).dedup
  · rw [if_pos hm]
  · rw [if_neg hm]
    exact (groupSum_eq_zero_of_not_mem compo e.alpha3
      (by simpa [List.mem_dedup] using hm)).symm

/-- Inversion for a successful `get_country_weights` call: the load
succeeded and the output is the aggregation of the loaded frame. -/
theorem get_country_weights_ok (fs : String → Option (List Holding)) (raw : List IsoEntry)
    (path : String) (out : List CountryWeightRow)
    (hout : get_country_weights fs raw path = .ok out) :
    ∃ compo, load_etf_compo fs raw path = .ok compo ∧
      out = aggregate_country_weights raw compo := by
  unfold get_country_weights at hout
  cases hload : load_etf_compo fs raw path with
  | error e => rw [hload] at hout; cases hout
  | ok compo =>
    rw [hload] at hout
    simp only [Except.map, Except.ok.injEq] at hout
    exact ⟨compo, rfl, hout.symm⟩

/-! ### Claim theorems -/

/-- C5: for every path that does not reference an existing file, the load
fails with the descriptive `ValueError` message — a terminal failure
surfaced to the caller (also through `get_country_weights`), never an
empty or partial result. -/
theorem claim5_missing_file_error (fs : String → Option (List Holding))
    (raw : List IsoEntry) (path : String) (hfs : fs path = none) :
    load_etf_compo fs raw path =
      .error ("Non-existent file path " ++ path ++ "! Data must be downloaded first!") ∧
    get_country_weights fs raw path =
      .error ("Non-existent file path " ++ path ++ "! Data must be downloaded first!") := by
  have h1 : load_etf_compo fs raw path =
      .error ("Non-existent file path " ++ path ++ "! Data must be downloaded first!") := by
    unfold load_etf_compo
    rw [hfs]
  refine ⟨h1, ?_⟩
  unfold get_country_weights
  rw [h1]
  rfl

/-- Witness for C5 at the file system with no files and path
`missing.csv`. -/
theorem claim5_missing_file_error_witness :
    load_etf_compo (fun _ => none) [] "missing.csv" =
      .error "Non-existent file path missing.csv! Data must be downloaded first!" ∧
    get_country_weights (fun _ => none) [] "missing.csv" =
      .error "Non-existent file path missing.csv! Data must be downloaded first!" :=
  claim5_missing_file_error (fun _ => none) [] "missing.csv" rfl

/-- C3: rows whose asset class is not `Equity` are removed during loading
and never contribute weight to any output: filtering the holdings to the
equity rows beforehand changes neither the loaded frame nor the aggregated
output. -/
theorem claim3_equity_filter (raw : List IsoEntry) (rows : List Holding) (path : String) :
    load_etf_compo (fun _ => some (rows.filter (fun h => h.assetClass == "Equity"))) raw path
      = load_etf_compo (fun _ => some rows) raw path ∧
    get_country_weights (fun _ => some (rows.filter (fun h => h.assetClass == "Equity"))) raw path
      = get_country_weights (fun _ => some rows) raw path := by
  have h1 : load_etf_compo (fun _ => some (rows.filter (fun h => h.assetClass == "Equity")))
      raw path = load_etf_compo (fun _ => some rows) raw path :=
    parse_holdings_filter_equity raw rows
  exact ⟨h1, congrArg (Except.map (aggregate_country_weights raw)) h1⟩

/-- C4 counterexample: a holdings row whose two-character prefix matches
no alpha-2 code is NOT always excluded without an error — when its weight
cell is unparseable, the `float` coercion on line 40 raises before the
code lookup matters, so loading fails instead of dropping the row. -/
theorem claim4_counterexample :
    get_iso3_from_iso2 [⟨"US", "USA", "United States"⟩] (("XX001" : String).take 2) = none ∧
    load_etf_compo (fun _ => some [⟨"XX001", "Equity", WeightCell.invalid, []⟩])
      [⟨"US", "USA", "United States"⟩] "p" = .error "could not convert string to float" :=
  ⟨rfl, rfl⟩

/-- C4 (amended): for every holdings row whose two-character prefix
matches no alpha-2 code in the reference table, the lookup returns the
absent sentinel `none`, and — provided the row's weight cell is parseable
(an unparseable weight raises on line 40 independently of code
resolution) — the row is excluded from the loaded holdings and from the
aggregation without any error being raised. -/
theorem claim4_unresolved_excluded (raw : List IsoEntry) (h : Holding)
    (hs : List Holding) (path : String)
    (hpre : h.isin.take 2 ∉ (load_iso_mapping raw).map (fun e => e.alpha2))
    (hv : h.weight ≠ WeightCell.invalid) :
    get_iso3_from_iso2 raw (h.isin.take 2) = none ∧
    load_etf_compo (fun _ => some (h :: hs)) raw path
      = load_etf_compo (fun _ => some hs) raw path ∧
    get_country_weights (fun _ => some (h :: hs)) raw path
      = get_country_weights (fun _ => some hs) raw path := by
  have hn := get_iso3_from_iso2_eq_none raw (h.isin.take 2) hpre
  have h2 : load_etf_compo (fun _ => some (h :: hs)) raw path
      = load_etf_compo (fun _ => some hs) raw path :=
    parse_holdings_cons_unresolved raw h hs hv hn
  exact ⟨hn, h2, congrArg (Except.map (aggregate_country_weights raw)) h2⟩

/-- Witness for C4 (amended) at a one-country table and the unresolvable
identifier `XX001`. -/
theorem claim4_unresolved_excluded_witness :
    get_iso3_from_iso2 [⟨"US", "USA", "United States"⟩] (("XX001" : String).take 2) = none ∧
    load_etf_compo (fun _ => some [⟨"XX001", "Equity", WeightCell.val 5, []⟩,
        ⟨"US9999", "Equity", WeightCell.val 7, []⟩])
      [⟨"US", "USA", "United States"⟩] "p"
      = load_etf_compo (fun _ => some [⟨"US9999", "Equity", WeightCell.val 7, []⟩])
        [⟨"US", "USA", "United States"⟩] "p" ∧
    get_country_weights (fun _ => some [⟨"XX001", "Equity", WeightCell.val 5, []⟩,
        ⟨"US9999", "Equity", WeightCell.val 7, []⟩])
      [⟨"US", "USA", "United States"⟩] "p"
      = get_country_weights (fun _ => some [⟨"US9999", "Equity", WeightCell.val 7, []⟩])
        [⟨"US", "USA", "United States"⟩] "p" :=
  claim4_unresolved_excluded [⟨"US", "USA", "United States"⟩]
    ⟨"XX001", "Equity", WeightCell.val 5, []⟩
    [⟨"US9999", "Equity", WeightCell.val 7, []⟩] "p" (by decide) (by decide)

/-- C6 counterexample: an equity row with an unparseable weight value is
not dropped from the result — loading raises the `float` conversion error
instead (only an EMPTY weight cell is silently dropped). -/
theorem claim6_counterexample :
    load_etf_compo (fun _ => some [⟨"US0001", "Equity", WeightCell.invalid, []⟩])
      [⟨"US", "USA", "United States"⟩] "p" = .error "could not convert string to float" ∧
    ¬ load_etf_compo (fun _ => some [⟨"US0001", "Equity", WeightCell.invalid, []⟩])
      [⟨"US", "USA", "United States"⟩] "p" = .ok [] :=
  ⟨rfl, fun hc => Except.noConfusion hc⟩

/-- C6 (amended): an equity row with a MISSING weight cell is silently
dropped from the loaded holdings without an error (the same treatment as
an absent alpha-3 resolution), while an equity row with an unparseable
weight value makes the whole load fail with the `float` conversion
error. -/
theorem claim6_missing_dropped_invalid_raises (raw : List IsoEntry) (h : Holding)
    (t rows : List Holding) (path : String) :
    (h.weight = WeightCell.missing →
      load_etf_compo (fun _ => some (h :: t)) raw path
        = load_etf_compo (fun _ => some t) raw path) ∧
    (h ∈ rows → h.assetClass = "Equity" → h.weight = WeightCell.invalid →
      load_etf_compo (fun _ => some rows) raw path
        = .error "could not convert string to float") := by
  constructor
  · intro hm
    exact parse_holdings_cons_missing raw h t hm
  · intro hmem he hw
    exact parse_holdings_error_of_invalid raw rows h hmem he hw

/-- Witness for C6 (amended): a missing-weight row is dropped next to a
kept row; an invalid-weight row aborts the load. -/
theorem claim6_missing_dropped_invalid_raises_witness :
    load_etf_compo (fun _ => some [⟨"US0001", "Equity", WeightCell.missing, [some "x"]⟩,
        ⟨"US0002", "Equity", WeightCell.val 3, []⟩]) [⟨"US", "USA", "United States"⟩] "p"
      = load_etf_compo (fun _ => some [⟨"US0002", "Equity", WeightCell.val 3, []⟩])
        [⟨"US", "USA", "United States"⟩] "p" ∧
    load_etf_compo (fun _ => some [⟨"DE0001", "Equity", WeightCell.invalid, []⟩])
      [⟨"DE", "DEU", "Germany"⟩] "q" = .error "could not convert string to float" :=
  ⟨(claim6_missing_dropped_invalid_raises [⟨"US", "USA", "United States"⟩]
      ⟨"US0001", "Equity", WeightCell.missing, [some "x"]⟩
      [⟨"US0002", "Equity", WeightCell.val 3, []⟩] [] "p").1 rfl,
   (claim6_missing_dropped_invalid_raises [⟨"DE", "DEU", "Germany"⟩]
      ⟨"DE0001", "Equity", WeightCell.invalid, []⟩ []
      [⟨"DE0001", "Equity", WeightCell.invalid, []⟩] "q").2
      (List.mem_cons_self _ _) rfl rfl⟩

/-- C10: an equity row with a valid numeric weight and a resolvable
prefix is nevertheless dropped when ANY other column holds a missing
value, because `dropna()` on line 43 removes rows with a missing value in
any column; the same row with that cell present is kept. -/
theorem claim10_dropna_any_column :
    get_iso3_from_iso2 [⟨"US", "USA", "United States"⟩] (("US0001" : String).take 2)
      = some "USA" ∧
    load_etf_compo (fun _ => some [⟨"US0001", "Equity", WeightCell.val 40, [none]⟩])
      [⟨"US", "USA", "United States"⟩] "p" = .ok [] ∧
    load_etf_compo (fun _ => some [⟨"US0001", "Equity", WeightCell.val 40, [some "Tech"]⟩])
      [⟨"US", "USA", "United States"⟩] "p"
      = .ok [⟨"US0001", 40, "US", "USA", [some "Tech"]⟩] :=
  ⟨rfl, rfl, rfl⟩

/-- C7: the spec's worked example — two equity rows (US 40, JP 10) and a
bond row (US 50) against the three-country reference table yield exactly
three output rows: USA 40, JPN 10 and DEU 0. -/
theorem claim7_example :
    get_country_weights
      (fun _ => some [⟨"US0123", "Equity", WeightCell.val 40, []⟩,
        ⟨"JP0456", "Equity", WeightCell.val 10, []⟩,
        ⟨"US0789", "Bond", WeightCell.val 50, []⟩])
      [⟨"US", "USA", "United States"⟩, ⟨"JP", "JPN", "Japan"⟩, ⟨"DE", "DEU", "Germany"⟩] "p"
      = .ok [⟨"USA", 40, some "United States", NpLogVal.logOf 40⟩,
        ⟨"JPN", 10, some "Japan", NpLogVal.logOf 10⟩,
        ⟨"DEU", 0, some "Germany", NpLogVal.negInf⟩] := by
  have hp : parse_holdings
      [⟨"US", "USA", "United States"⟩, ⟨"JP", "JPN", "Japan"⟩, ⟨"DE", "DEU", "Germany"⟩]
      [⟨"US0123", "Equity", WeightCell.val 40, []⟩,
        ⟨"JP0456", "Equity", WeightCell.val 10, []⟩,
        ⟨"US0789", "Bond", WeightCell.val 50, []⟩]
      = .ok [⟨"US0123", 40, "US", "USA", []⟩, ⟨"JP0456", 10, "JP", "JPN", []⟩] := by rfl
  have g1 : groupSum [⟨"US0123", 40, "US", "USA", []⟩, ⟨"JP0456", 10, "JP", "JPN", []⟩] "USA"
      = 40 := by simp [groupSum]
  have g2 : groupSum [⟨"US0123", 40, "US", "USA", []⟩, ⟨"JP0456", 10, "JP", "JPN", []⟩] "JPN"
      = 10 := by simp [groupSum]
  have hn1 : get_country_name_from_iso3
      [⟨"US", "USA", "United States"⟩, ⟨"JP", "JPN", "Japan"⟩, ⟨"DE", "DEU", "Germany"⟩] "USA"
      = some "United States" := by decide
  have hn2 : get_country_name_from_iso3
      [⟨"US", "USA", "United States"⟩, ⟨"JP", "JPN", "Japan"⟩, ⟨"DE", "DEU", "Germany"⟩] "JPN"
      = some "Japan" := by decide
  have hn3 : get_country_name_from_iso3
      [⟨"US", "USA", "United States"⟩, ⟨"JP", "JPN", "Japan"⟩, ⟨"DE", "DEU", "Germany"⟩] "DEU"
      = some "Germany" := by decide
  have hiso : load_iso_mapping
      [⟨"US", "USA", "United States"⟩, ⟨"JP", "JPN", "Japan"⟩, ⟨"DE", "DEU", "Germany"⟩]
      = [⟨"US", "USA", "United States"⟩, ⟨"JP", "JPN", "Japan"⟩, ⟨"DE", "DEU", "Germany"⟩] := by
    decide
  have hkeys : (([⟨"US0123", 40, "US", "USA", []⟩, ⟨"JP0456", 10, "JP", "JPN", []⟩] :
      List CompoRow).map (fun r => r.iso3)).dedup = ["USA", "JPN"] := by decide
  have hne1 : ¬(("DEU" : String) = "USA" ∨ ("DEU" : String) = "JPN") := by decide
  have hne2 : (("USA" : String) = "USA" ∨ ("USA" : String) = "JPN") := by decide
  have hne3 : (("JPN" : String) = "USA" ∨ ("JPN" : String) = "JPN") := by decide
  simp only [get_country_weights, load_etf_compo, hp, Except.map]
  simp only [aggregate_country_weights, hiso, hkeys, List.map_cons, List.map_nil, g1, g2]
  norm_num [np_log, hn1, hn2, hn3, hne1, hne2, hne3, g1, g2]

/-- C9: on a reference table whose normalized form splits as
`l₁ ++ e :: l₂` with no entry of `l₁` matching the queried code, both
lookups return the values of `e` — the first matching entry in table
order — so duplicates resolve to the earliest row. -/
theorem claim9_first_match (raw l₁ l₂ : List IsoEntry) (e : IsoEntry) (c : String)
    (hsplit : load_iso_mapping raw = l₁ ++ e :: l₂) :
    ((∀ x ∈ l₁, x.alpha2 ≠ c) → e.alpha2 = c →
      get_iso3_from_iso2 raw c = some e.alpha3) ∧
    ((∀ x ∈ l₁, x.alpha3 ≠ c) → e.alpha3 = c →
      get_country_name_from_iso3 raw c = some e.name) := by
  constructor
  · intro hno hec
    unfold get_iso3_from_iso2
    rw [hsplit, find?_append_first (fun x => x.alpha2 == c) l₁ e l₂
      (fun x hx => by simp [hno x hx]) (by simp [hec])]
  · intro hno hec
    unfold get_country_name_from_iso3
    rw [hsplit, find?_append_first (fun x => x.alpha3 == c) l₁ e l₂
      (fun x hx => by simp [hno x hx]) (by simp [hec])]

/-- Witness for C9 on a table with a duplicate alpha-2 code (`US`) and a
duplicate alpha-3 code (`USA`): both lookups return the first entry's
values. -/
theorem claim9_first_match_witness :
    get_iso3_from_iso2 [⟨"US", "USA", "United States"⟩, ⟨"US", "USX", "Duplicate Two"⟩,
      ⟨"GB", "USA", "Duplicate Three"⟩] "US" = some "USA" ∧
    get_country_name_from_iso3 [⟨"US", "USA", "United States"⟩, ⟨"US", "USX", "Duplicate Two"⟩,
      ⟨"GB", "USA", "Duplicate Three"⟩] "USA" = some "United States" :=
  ⟨(claim9_first_match [⟨"US", "USA", "United States"⟩, ⟨"US", "USX", "Duplicate Two"⟩,
      ⟨"GB", "USA", "Duplicate Three"⟩] []
      [⟨"US", "USX", "Duplicate Two"⟩, ⟨"GB", "USA", "Duplicate Three"⟩]
      ⟨"US", "USA", "United States"⟩ "US" (by decide)).1 (by simp) rfl,
   (claim9_first_match [⟨"US", "USA", "United States"⟩, ⟨"US", "USX", "Duplicate Two"⟩,
      ⟨"GB", "USA", "Duplicate Three"⟩] []
      [⟨"US", "USX", "Duplicate Two"⟩, ⟨"GB", "USA", "Duplicate Three"⟩]
      ⟨"US", "USA", "United States"⟩ "USA" (by decide)).2 (by simp) rfl⟩

/-- C1: a successful aggregation has exactly one output row per
reference-table row — its cardinality never depends on how many distinct
countries the holdings contain — and any output row whose alpha-3 code no
holdings row resolves to keeps the default weight 0. -/
theorem claim1_full_country_universe (fs : String → Option (List Holding))
    (raw : List IsoEntry) (rows : List Holding) (path : String)
    (out : List CountryWeightRow)
    (hfs : fs path = some rows)
    (hout : get_country_weights fs raw path = .ok out) :
    out.length = raw.length ∧
    ∀ r ∈ out,
      (∀ h ∈ rows, get_iso3_from_iso2 raw (h.isin.take 2) ≠ some r.iso3_code) →
      r.weight = 0 := by
  obtain ⟨compo, hload, hagg⟩ := get_country_weights_ok fs raw path out hout
  have hparse : parse_holdings raw rows = .ok compo := by
    unfold load_etf_compo at hload
    rw [hfs] at hload
    exact hload
  constructor
  · rw [hagg]
    exact aggregate_country_weights_length raw compo
  · intro r hr hno
    rw [hagg] at hr
    rw [aggregate_country_weights_weight raw compo r hr]
    apply groupSum_eq_zero_of_not_mem
    intro hmem
    obtain ⟨r', hr', heq⟩ := List.mem_map.mp hmem
    obtain ⟨h, hh, hres⟩ := parse_holdings_iso3_source raw rows compo hparse r' hr'
    exact hno h hh (by rw [hres, heq])

/-- Witness for C1 at an empty holdings file and a one-country table:
the output still has one row, with weight 0. -/
theorem claim1_full_country_universe_witness :
    ([⟨"USA", 0, some "United States", NpLogVal.negInf⟩] : List CountryWeightRow).length
      = ([⟨"US", "USA", "United States"⟩] : List IsoEntry).length ∧
    (⟨"USA", 0, some "United States", NpLogVal.negInf⟩ : CountryWeightRow).weight = 0 :=
  have hout : get_country_weights (fun _ => some []) [⟨"US", "USA", "United States"⟩] "p"
      = .ok [⟨"USA", 0, some "United States", NpLogVal.negInf⟩] := by
    have hiso : load_iso_mapping [⟨"US", "USA", "United States"⟩]
        = [⟨"US", "USA", "United States"⟩] := by decide
    have hn : get_country_name_from_iso3 [⟨"US", "USA", "United States"⟩] "USA"
        = some "United States" := by decide
    simp only [get_country_weights, load_etf_compo, parse_holdings, Except.map,
      aggregate_country_weights, hiso, hn, List.map_cons, List.map_nil, List.dedup_nil]
    norm_num [np_log]
  ⟨(claim1_full_country_universe (fun _ => some []) [⟨"US", "USA", "United States"⟩] [] "p"
      [⟨"USA", 0, some "United States", NpLogVal.negInf⟩] rfl hout).1,
   (claim1_full_country_universe (fun _ => some []) [⟨"US", "USA", "United States"⟩] [] "p"
      [⟨"USA", 0, some "United States", NpLogVal.negInf⟩] rfl hout).2
      ⟨"USA", 0, some "United States", NpLogVal.negInf⟩ (List.mem_singleton_self _)
      (by simp)⟩

/-- C8: every output row of a successful aggregation carries the `np.log`
of its total weight as the derived log column; a zero total weight yields
the `-inf` marker, and such rows are kept (the output still has one row
per reference-table row, none filtered out). -/
theorem claim8_log_weight (fs : String → Option (List Holding)) (raw : List IsoEntry)
    (path : String) (out : List CountryWeightRow)
    (hout : get_country_weights fs raw path = .ok out) :
    out.length = raw.length ∧
    ∀ r ∈ out, r.weight_log = np_log r.weight ∧
      (r.weight = 0 → r.weight_log = NpLogVal.negInf) := by
  obtain ⟨compo, _, hagg⟩ := get_country_weights_ok fs raw path out hout
  constructor
  · rw [hagg]
    exact aggregate_country_weights_length raw compo
  · intro r hr
    rw [hagg] at hr
    have hlog := aggregate_country_weights_log raw compo r hr
    refine ⟨hlog, ?_⟩
    intro h0
    rw [hlog, h0]
    simp [np_log]

/-- Witness for C8 at an empty holdings file and a one-country table: the
zero-weight row is present with the `-inf` log marker. -/
theorem claim8_log_weight_witness :
    ([⟨"DEU", 0, some "Germany", NpLogVal.negInf⟩] : List CountryWeightRow).length
      = ([⟨"DE", "DEU", "Germany"⟩] : List IsoEntry).length ∧
    (⟨"DEU", 0, some "Germany", NpLogVal.negInf⟩ : CountryWeightRow).weight_log
      = NpLogVal.negInf :=
  have hout : get_country_weights (fun _ => some []) [⟨"DE", "DEU", "Germany"⟩] "p"
      = .ok [⟨"DEU", 0, some "Germany", NpLogVal.negInf⟩] := by
    have hiso : load_iso_mapping [⟨"DE", "DEU", "Germany"⟩] = [⟨"DE", "DEU", "Germany"⟩] := by
      decide
    have hn : get_country_name_from_iso3 [⟨"DE", "DEU", "Germany"⟩] "DEU"
        = some "Germany" := by decide
    simp only [get_country_weights, load_etf_compo, parse_holdings, Except.map,
      aggregate_country_weights, hiso, hn, List.map_cons, List.map_nil, List.dedup_nil]
    norm_num [np_log]
  ⟨(claim8_log_weight (fun _ => some []) [⟨"DE", "DEU", "Germany"⟩] "p"
      [⟨"DEU", 0, some "Germany", NpLogVal.negInf⟩] hout).1,
   ((claim8_log_weight (fun _ => some []) [⟨"DE", "DEU", "Germany"⟩] "p"
      [⟨"DEU", 0, some "Germany", NpLogVal.negInf⟩] hout).2
      ⟨"DEU", 0, some "Germany", NpLogVal.negInf⟩ (List.mem_singleton_self _)).2 rfl⟩

/-- C2 counterexample: a holdings file with only equity rows whose
prefixes all resolve, one of which has an empty cell in another column:
`dropna` discards that row (weight 10), so the output total is 40 while
the input total is 50 — weight is not conserved as the claim states. -/
theorem claim2_counterexample :
    (∀ h ∈ [(⟨"US0001", "Equity", WeightCell.val 40, [some "Tech"]⟩ : Holding),
        ⟨"US0002", "Equity", WeightCell.val 10, [none]⟩],
      h.assetClass = "Equity" ∧
        (get_iso3_from_iso2 [⟨"US", "USA", "United States"⟩] (h.isin.take 2)).isSome = true) ∧
    get_country_weights
      (fun _ => some [⟨"US0001", "Equity", WeightCell.val 40, [some "Tech"]⟩,
        ⟨"US0002", "Equity", WeightCell.val 10, [none]⟩])
      [⟨"US", "USA", "United States"⟩] "p"
      = .ok [⟨"USA", 40, some "United States", NpLogVal.logOf 40⟩] ∧
    totalOutputWeight [⟨"USA", 40, some "United States", NpLogVal.logOf 40⟩] = 40 ∧
    totalInputWeight [⟨"US0001", "Equity", WeightCell.val 40, [some "Tech"]⟩,
      ⟨"US0002", "Equity", WeightCell.val 10, [none]⟩] = 50 ∧
    totalOutputWeight [⟨"USA", 40, some "United States", NpLogVal.logOf 40⟩]
      ≠ totalInputWeight [⟨"US0001", "Equity", WeightCell.val 40, [some "Tech"]⟩,
        ⟨"US0002", "Equity", WeightCell.val 10, [none]⟩] := by
  refine ⟨by decide, ?_, by simp [totalOutputWeight], by norm_num [totalInputWeight], ?_⟩
  · have hp : parse_holdings [⟨"US", "USA", "United States"⟩]
        [⟨"US0001", "Equity", WeightCell.val 40, [some "Tech"]⟩,
          ⟨"US0002", "Equity", WeightCell.val 10, [none]⟩]
        = .ok [⟨"US0001", 40, "US", "USA", [some "Tech"]⟩] := by rfl
    have g1 : groupSum [⟨"US0001", 40, "US", "USA", [some "Tech"]⟩] "USA" = 40 := by
      simp [groupSum]
    have hn : get_country_name_from_iso3 [⟨"US", "USA", "United States"⟩] "USA"
        = some "United States" := by decide
    have hiso : load_iso_mapping [⟨"US", "USA", "United States"⟩]
        = [⟨"US", "USA", "United States"⟩] := by decide
    have hkeys : (([⟨"US0001", 40, "US", "USA", [some "Tech"]⟩] : List CompoRow).map
        (fun r => r.iso3)).dedup = ["USA"] := by decide
    simp only [get_country_weights, load_etf_compo, hp, Except.map,
      aggregate_country_weights, hiso, hkeys, List.map_cons, List.map_nil, g1]
    norm_num [np_log, hn, g1]
  · simp only [totalOutputWeight, totalInputWeight]
    norm_num

/-- C2 (amended): weight is conserved, provided the resolvable equity
rows also have a present numeric weight and no empty cell in any other
column (otherwise `dropna` discards them, see the counterexample), and
the reference table's normalized alpha-3 codes are duplicate-free (the
spec's stated table invariant): the output total then equals the input
total exactly, over exact rationals. -/
theorem claim2_weight_conservation (raw : List IsoEntry) (rows : List Holding)
    (path : String) (out : List CountryWeightRow)
    (hnd : (((load_iso_mapping raw).map (fun e => e.alpha3))).Nodup)
    (hall : ∀ h ∈ rows, survives raw h)
    (hout : get_country_weights (fun _ => some rows) raw path = .ok out) :
    totalOutputWeight out = totalInputWeight rows := by
  obtain ⟨compo, hload, hagg⟩ := get_country_weights_ok _ raw path out hout
  have hparse : parse_holdings raw rows = .ok compo := hload
  have hcompo : compo = rows.map (row_of_holding raw) := by
    rw [parse_holdings_of_survives raw rows hall] at hparse
    cases hparse
    rfl
  have hcov : ∀ r ∈ compo, r.iso3 ∈ (load_iso_mapping raw).map (fun e => e.alpha3) := by
    intro r hr
    rw [hcompo] at hr
    obtain ⟨h, hh, rfl⟩ := List.mem_map.mp hr
    obtain ⟨_, ⟨q, hq⟩, hiso, _⟩ := hall h hh
    cases hs : get_iso3_from_iso2 raw (h.isin.take 2) with
    | none => rw [hs] at hiso; cases hiso
    | some a3 =>
      have hr3 : (row_of_holding raw h).iso3 = a3 := by simp [row_of_holding, hs]
      rw [hr3]
      exact get_iso3_mem_alpha3 raw (h.isin.take 2) a3 hs
  rw [hagg, totalOutputWeight_aggregate raw compo,
    sum_groupSum ((load_iso_mapping raw).map (fun e => e.alpha3)) compo hnd hcov,
    hcompo, List.map_map]
  unfold totalInputWeight
  apply congrArg List.sum
  apply List.map_congr_left
  intro h _
  rfl

/-- Witness for C2 (amended) at a two-row resolvable equity holdings file
over a two-country table: output total 40 + 10 equals input total 50. -/
theorem claim2_weight_conservation_witness :
    totalOutputWeight [⟨"USA", 40, some "United States", NpLogVal.logOf 40⟩,
        ⟨"JPN", 10, some "Japan", NpLogVal.logOf 10⟩]
      = totalInputWeight [⟨"US0001", "Equity", WeightCell.val 40, [some "Tech"]⟩,
        ⟨"JP0002", "Equity", WeightCell.val 10, [some "Auto"]⟩] :=
  have hout : get_country_weights
      (fun _ => some [⟨"US0001", "Equity", WeightCell.val 40, [some "Tech"]⟩,
        ⟨"JP0002", "Equity", WeightCell.val 10, [some "Auto"]⟩])
      [⟨"US", "USA", "United States"⟩, ⟨"JP", "JPN", "Japan"⟩] "p"
      = .ok [⟨"USA", 40, some "United States", NpLogVal.logOf 40⟩,
        ⟨"JPN", 10, some "Japan", NpLogVal.logOf 10⟩] := by
    have hp : parse_holdings [⟨"US", "USA", "United States"⟩, ⟨"JP", "JPN", "Japan"⟩]
        [⟨"US0001", "Equity", WeightCell.val 40, [some "Tech"]⟩,
          ⟨"JP0002", "Equity", WeightCell.val 10, [some "Auto"]⟩]
        = .ok [⟨"US0001", 40, "US", "USA", [some "Tech"]⟩,
          ⟨"JP0002", 10, "JP", "JPN", [some "Auto"]⟩] := by rfl
    have g1 : groupSum [⟨"US0001", 40, "US", "USA", [some "Tech"]⟩,
        ⟨"JP0002", 10, "JP", "JPN", [some "Auto"]⟩] "USA" = 40 := by simp [groupSum]
    have g2 : groupSum [⟨"US0001", 40, "US", "USA", [some "Tech"]⟩,
        ⟨"JP0002", 10, "JP", "JPN", [some "Auto"]⟩] "JPN" = 10 := by simp [groupSum]
    have hn1 : get_country_name_from_iso3
        [⟨"US", "USA", "United States"⟩, ⟨"JP", "JPN", "Japan"⟩] "USA"
        = some "United States" := by decide
    have hn2 : get_country_name_from_iso3
        [⟨"US", "USA", "United States"⟩, ⟨"JP", "JPN", "Japan"⟩] "JPN"
        = some "Japan" := by decide
    have hiso : load_iso_mapping [⟨"US", "USA", "United States"⟩, ⟨"JP", "JPN", "Japan"⟩]
        = [⟨"US", "USA", "United States"⟩, ⟨"JP", "JPN", "Japan"⟩] := by decide
    have hkeys : (([⟨"US0001", 40, "US", "USA", [some "Tech"]⟩,
        ⟨"JP0002", 10, "JP", "JPN", [some "Auto"]⟩] : List CompoRow).map
        (fun r => r.iso3)).dedup = ["USA", "JPN"] := by decide
    have hne1 : (("USA" : String) = "USA" ∨ ("USA" : String) = "JPN") := by decide
    have hne2 : (("JPN" : String) = "USA" ∨ ("JPN" : String) = "JPN") := by decide
    simp only [get_country_weights, load_etf_compo, hp, Except.map,
      aggregate_country_weights, hiso, hkeys, List.map_cons, List.map_nil, g1, g2]
    norm_num [np_log, hn1, hn2, hne1, hne2, g1, g2]
  claim2_weight_conservation [⟨"US", "USA", "United States"⟩, ⟨"JP", "JPN", "Japan"⟩]
    [⟨"US0001", "Equity", WeightCell.val 40, [some "Tech"]⟩,
      ⟨"JP0002", "Equity", WeightCell.val 10, [some "Auto"]⟩] "p"
    [⟨"USA", 40, some "United States", NpLogVal.logOf 40⟩,
      ⟨"JPN", 10, some "Japan", NpLogVal.logOf 10⟩]
    (by decide)
    (by
      intro h hh
      rcases List.mem_cons.mp hh with rfl | hh2
      · exact ⟨rfl, ⟨40, rfl⟩, rfl, rfl⟩
      · rcases List.mem_cons.mp hh2 with rfl | hh3
        · exact ⟨rfl, ⟨10, rfl⟩, rfl, rfl⟩
        · cases hh3)
    hout
